import Mathlib

/-!
# Verification of the AutoCad-MCP natural-language command parser

Shallow embedding of `src/autocad_mcp/nlp_processor.py` (class `NLPProcessor`).
Python floats are modelled as rationals (`ℚ`); the numeric literals handled by
the parser are plain decimal strings, and no claim under scrutiny depends on
binary floating-point rounding.  Python regular-expression search is modelled
by hand-compiled scanning functions that reproduce `re`'s leftmost-match,
alternation-order and greedy-backtracking semantics for the fixed patterns of
the source.  Character classes `\d`/`\s`/`\w` are modelled by their ASCII
cores, which cover every behaviour the claims exercise.
-/

/-- A Python value stored in a parsed-command parameter dictionary. -/
inductive PValue where
  | num : ℚ → PValue
  | str : String → PValue
  | bool : Bool → PValue
  | pt : ℚ × ℚ → PValue
  | pts : List (ℚ × ℚ) → PValue
deriving DecidableEq, Repr

/-- A Python `dict[str, Any]` as an insertion-ordered association list. -/
abbrev Params := List (String × PValue)

/-- Python `d[k] = v`: overwrite in place if the key exists, else append. -/
def dictSet (ps : Params) (k : String) (v : PValue) : Params :=
  match ps with
  | [] => [(k, v)]
  | (k0, v0) :: rest => if k0 = k then (k, v) :: rest else (k0, v0) :: dictSet rest k v

/-- Python `d.get(k)`: first binding of the key, if any. -/
def dictGet (ps : Params) (k : String) : Option PValue :=
  match ps with
  | [] => none
  | (k0, v0) :: rest => if k0 = k then some v0 else dictGet rest k

/-- The `ParsedCommand` dataclass of the source. -/
structure ParsedCommand where
  action : String
  shape : Option String
  parameters : Params
  raw_text : String
  confidence : ℚ
deriving DecidableEq, Repr

/-! ## Character helpers (`\d`, `\s`, case-insensitivity) -/

def isDig (c : Char) : Bool := c.isDigit

def isSpc (c : Char) : Bool := c.isWhitespace

def skipSpaces (s : List Char) : List Char := s.dropWhile isSpc

def takeDigits (s : List Char) : List Char × List Char :=
  (s.takeWhile isDig, s.dropWhile isDig)

def lowerChars (s : List Char) : List Char := s.map Char.toLower

/-! ## Numeric lexemes

A capture of `-?\d+\.?\d*` (or its unsigned variant) is kept as a structured
lexeme so that its rendered text and its `float(...)` value can be related. -/

/-- A numeric lexeme: optional sign, integer digits, optional dot, fraction digits. -/
structure NumLex where
  neg : Bool
  ip : List Char
  dot : Bool
  fp : List Char
deriving DecidableEq, Repr

/-- The text of the lexeme, exactly as captured by the pattern. -/
def NumLex.render (n : NumLex) : List Char :=
  (if n.neg then ['-'] else []) ++ n.ip ++ (if n.dot then ['.'] else []) ++ n.fp

/-- Value of a digit run, most significant first. -/
def digitsVal (ds : List Char) : ℕ :=
  ds.foldl (fun a c => 10 * a + (c.toNat - 48)) 0

/-- The value `float(...)` produces on the lexeme's text. -/
def NumLex.val (n : NumLex) : ℚ :=
  let mag : ℚ := (digitsVal n.ip : ℚ) + (digitsVal n.fp : ℚ) / 10 ^ n.fp.length
  if n.neg then -mag else mag

/-- Well-formedness of a captured lexeme: nonempty all-digit integer part,
all-digit fraction part, and a fraction only after a dot. -/
def WFnum (n : NumLex) : Prop :=
  n.ip ≠ [] ∧ n.ip.all isDig ∧ n.fp.all isDig ∧ (n.fp ≠ [] → n.dot)

/-- Python's `float` on a plain decimal string (no exponent, no spaces —
a sublanguage of what `float` accepts, sufficient for every capture the
parser produces): optional sign, digits, optional dot and fraction digits,
at least one digit overall, nothing left over. -/
def pyFloat? (s : List Char) : Option ℚ :=
  let (neg, s1) :=
    match s with
    | c :: r => if c = '-' then (true, r) else if c = '+' then (false, r) else (false, c :: r)
    | [] => (false, ([] : List Char))
  let (ip, r1) := takeDigits s1
  let (fp, r2) :=
    match r1 with
    | '.' :: r2 => takeDigits r2
    | _ => (([] : List Char), r1)
  if r2 = [] ∧ (ip ≠ [] ∨ fp ≠ []) then
    let mag : ℚ := (digitsVal ip : ℚ) + (digitsVal fp : ℚ) / 10 ^ fp.length
    some (if neg then -mag else mag)
  else none

/-! ## NUMBER_PATTERN: `(-?\d+\.?\d*)`, via `finditer` -/

/-- Greedy match of `\d+\.?\d*` at the current position (nothing follows the
group in the patterns that use it, so greediness never backtracks). -/
def matchUnsignedNum (s : List Char) : Option (NumLex × List Char) :=
  if (s.takeWhile isDig).isEmpty then none
  else
    match s.dropWhile isDig with
    | '.' :: r2 => some (⟨false, s.takeWhile isDig, true, r2.takeWhile isDig⟩, r2.dropWhile isDig)
    | rest => some (⟨false, s.takeWhile isDig, false, []⟩, rest)

/-- Greedy match of `-?\d+\.?\d*` at the current position. -/
def matchSignedNum (s : List Char) : Option (NumLex × List Char) :=
  match s with
  | '-' :: r =>
    match matchUnsignedNum r with
    | some (n, rest) => some ({ n with neg := true }, rest)
    | none => none
  | _ => matchUnsignedNum s

/-- `NUMBER_PATTERN.finditer`: scan left to right, emit non-overlapping
matches, resume after each match.  Fuel starts at the string length; every
step strictly shortens the list, so fuel never runs out early. -/
def numScan : Nat → List Char → List NumLex
  | 0, _ => []
  | _ + 1, [] => []
  | fuel + 1, c :: rest =>
    match matchSignedNum (c :: rest) with
    | some (n, r2) => n :: numScan fuel r2
    | none => numScan fuel rest

def numLexemes (t : String) : List NumLex := numScan t.data.length t.data

/-- `extract_numbers` of the source. -/
def extract_numbers (t : String) : List ℚ := (numLexemes t).map NumLex.val

/-! ## COORD_PATTERN: `\(?\s*(-?\d+\.?\d*)\s*,\s*(-?\d+\.?\d*)\s*\)?`

The only genuine backtracking in the source's patterns is in the first
captured number, whose greedy quantifiers give back characters until the
following `\s*,\s*(-?\d+...` can match.  The candidate end positions, in the
order Python's engine tries them, are: all ends that include the dot, longest
first, then all digit-only ends, longest first; the first candidate whose
continuation succeeds wins. -/

/-- Digit-only candidates for the first coordinate component, longest first. -/
def digitCands (neg : Bool) (d1 rest : List Char) : List (NumLex × List Char) :=
  (List.range d1.length).map fun i =>
    let j := d1.length - i
    (⟨neg, d1.take j, false, []⟩, d1.drop j ++ rest)

/-- Dotted candidates for the first coordinate component, longest first. -/
def dotCands (neg : Bool) (d1 d2 rest : List Char) : List (NumLex × List Char) :=
  (List.range (d2.length + 1)).map fun i =>
    let k := d2.length - i
    (⟨neg, d1, true, d2.take k⟩, d2.drop k ++ rest)

/-- Candidates after the optional sign has been consumed. -/
def g1candsAux (neg : Bool) (s1 : List Char) : List (NumLex × List Char) :=
  if (s1.takeWhile isDig).isEmpty then []
  else
    match s1.dropWhile isDig with
    | '.' :: r2 =>
      dotCands neg (s1.takeWhile isDig) (r2.takeWhile isDig) (r2.dropWhile isDig) ++
        digitCands neg (s1.takeWhile isDig) (s1.dropWhile isDig)
    | _ => digitCands neg (s1.takeWhile isDig) (s1.dropWhile isDig)

/-- All backtracking candidates of `-?\d+\.?\d*` at a position, in the order
the regex engine tries them. -/
def g1cands (s : List Char) : List (NumLex × List Char) :=
  match s with
  | '-' :: r => g1candsAux true r
  | _ => g1candsAux false s

/-- Does a signed number start here (`-?\d` can begin)? -/
def numStarts (s : List Char) : Bool :=
  match s with
  | c :: r =>
    isDig c ||
      (c = '-' &&
        (match r with
         | d :: _ => isDig d
         | [] => false))
  | [] => false

/-- Continuation test after the first component: `\s*,\s*` then a number. -/
def coordContOk (s : List Char) : Bool :=
  match skipSpaces s with
  | ',' :: r2 => numStarts (skipSpaces r2)
  | _ => false

/-- The body of one `COORD_PATTERN` attempt, after `\(?\s*`: first component
(with backtracking), `\s*,\s*`, second component (greedy), `\s*\)?`. -/
def matchCoordBody (s2 : List Char) : Option ((NumLex × NumLex) × List Char) :=
  match (g1cands s2).find? (fun cand => coordContOk cand.2) with
  | none => none
  | some (n1, rest1) =>
    match skipSpaces rest1 with
    | ',' :: r2 =>
      match matchSignedNum (skipSpaces r2) with
      | some (n2, r3) =>
        match skipSpaces r3 with
        | ')' :: rr => some ((n1, n2), rr)
        | r4 => some ((n1, n2), r4)
      | none => none
    | _ => none

/-- One attempt of `COORD_PATTERN` at the current position (`\(?` first). -/
def matchCoordAt (s : List Char) : Option ((NumLex × NumLex) × List Char) :=
  match s with
  | '(' :: r => matchCoordBody (skipSpaces r)
  | _ => matchCoordBody (skipSpaces s)

/-- `COORD_PATTERN.finditer`, fuelled like `numScan`. -/
def coordScan : Nat → List Char → List (NumLex × NumLex)
  | 0, _ => []
  | _ + 1, [] => []
  | fuel + 1, c :: rest =>
    match matchCoordAt (c :: rest) with
    | some (pr, r5) => pr :: coordScan fuel r5
    | none => coordScan fuel rest

def coordLexemes (t : String) : List (NumLex × NumLex) := coordScan t.data.length t.data

/-- `extract_coordinates` of the source. -/
def extract_coordinates (t : String) : List (ℚ × ℚ) :=
  (coordLexemes t).map fun pr => (pr.1.val, pr.2.val)

/-! ## QUOTED_TEXT_PATTERN

The source pattern is a single alternation of three branches, searched
leftmost: a straight-quote branch accepting either quote character on each
side, a straight-double-quote branch whose content may contain single
quotes, and a corner-bracket branch.  At each position the branches are
tried in pattern order; the second only fires when the first fails at a
double quote (its content starting with a single quote). -/

def isStraightQuote (c : Char) : Bool := c = '"' || c = '\''

/-- First alternative: a straight quote (double or single, interchangeable),
one or more non-straight-quote characters, a straight quote. -/
def qAlt1 (s : List Char) : Option (List Char) :=
  match s with
  | c :: rest =>
    if isStraightQuote c then
      let content := rest.takeWhile (fun d => !isStraightQuote d)
      match rest.dropWhile (fun d => !isStraightQuote d) with
      | d :: _ => if isStraightQuote d ∧ content ≠ [] then some content else none
      | [] => none
    else none
  | [] => none

/-- Second alternative: straight double quotes, content excluding only the
double-quote character (single quotes allowed inside). -/
def qAlt2 (s : List Char) : Option (List Char) :=
  match s with
  | c :: rest =>
    if c = '"' then
      let content := rest.takeWhile (fun d => d ≠ '"')
      match rest.dropWhile (fun d => d ≠ '"') with
      | d :: _ => if d = '"' ∧ content ≠ [] then some content else none
      | [] => none
    else none
  | [] => none

/-- Third alternative: corner brackets `「...」`. -/
def qAlt3 (s : List Char) : Option (List Char) :=
  match s with
  | c :: rest =>
    if c = '「' then
      let content := rest.takeWhile (fun d => d ≠ '」')
      match rest.dropWhile (fun d => d ≠ '」') with
      | d :: _ => if d = '」' ∧ content ≠ [] then some content else none
      | [] => none
    else none
  | [] => none

/-- `re.search`: try the pattern at each position left to right, return the
first success. -/
def reSearch {α : Type} (tryAt : List Char → Option α) : List Char → Option α
  | [] => none
  | c :: rest =>
    match tryAt (c :: rest) with
    | some n => some n
    | none => reSearch tryAt rest

/-- The alternation at one position, alternatives in pattern order. -/
def qAltAt (s : List Char) : Option (List Char) :=
  match qAlt1 s with
  | some g => some g
  | none =>
    match qAlt2 s with
    | some g => some g
    | none => qAlt3 s

/-- `extract_quoted_text` of the source (the matched alternative's group is
the unique non-`None` group, which the source returns). -/
def extract_quoted_text (t : String) : Option String :=
  (reSearch qAltAt t.data).map fun g => String.mk g

/-! ## Keyword tables (insertion-ordered, as Python dicts preserve order) -/

/-- `COLOR_MAP` of the source. -/
def COLOR_MAP : List (String × Nat) :=
  [("red", 1), ("yellow", 2), ("green", 3), ("cyan", 4), ("blue", 5),
   ("magenta", 6), ("white", 7), ("gray", 8), ("grey", 8), ("black", 250),
   ("orange", 30), ("brown", 33), ("purple", 200), ("pink", 221),
   ("rosso", 1), ("rossa", 1), ("giallo", 2), ("gialla", 2), ("verde", 3),
   ("ciano", 4), ("blu", 5), ("azzurro", 5), ("azzurra", 5), ("bianco", 7),
   ("bianca", 7), ("grigio", 8), ("grigia", 8), ("nero", 250), ("nera", 250),
   ("arancione", 30), ("marrone", 33), ("viola", 200), ("rosa", 221),
   ("红", 1), ("红色", 1), ("黄", 2), ("黄色", 2), ("绿", 3), ("绿色", 3),
   ("青", 4), ("青色", 4), ("蓝", 5), ("蓝色", 5), ("洋红", 6), ("洋红色", 6),
   ("紫红", 6), ("白", 7), ("白色", 7), ("灰", 8), ("灰色", 8), ("黑", 250),
   ("黑色", 250), ("橙", 30), ("橙色", 30), ("棕", 33), ("棕色", 33),
   ("紫", 200), ("紫色", 200), ("粉", 221), ("粉色", 221), ("粉红", 221)]

/-- `SHAPE_KEYWORDS` of the source. -/
def SHAPE_KEYWORDS : List (String × String) :=
  [("line", "line"), ("circle", "circle"), ("arc", "arc"),
   ("ellipse", "ellipse"), ("rectangle", "rectangle"), ("rect", "rectangle"),
   ("square", "rectangle"), ("polyline", "polyline"), ("polygon", "polyline"),
   ("text", "text"), ("dimension", "dimension"), ("hatch", "hatch"),
   ("fill", "hatch"),
   ("linea", "line"), ("cerchio", "circle"), ("arco", "arc"),
   ("ellisse", "ellipse"), ("rettangolo", "rectangle"),
   ("quadrato", "rectangle"), ("polilinea", "polyline"),
   ("poligono", "polyline"), ("testo", "text"), ("quota", "dimension"),
   ("quotatura", "dimension"), ("riempimento", "hatch"),
   ("tratteggio", "hatch"),
   ("线", "line"), ("直线", "line"), ("圆", "circle"), ("圆形", "circle"),
   ("弧", "arc"), ("圆弧", "arc"), ("椭圆", "ellipse"), ("椭圆形", "ellipse"),
   ("矩形", "rectangle"), ("方形", "rectangle"), ("正方形", "rectangle"),
   ("多段线", "polyline"), ("折线", "polyline"), ("多边形", "polyline"),
   ("文字", "text"), ("文本", "text"), ("标注", "dimension"),
   ("尺寸", "dimension"), ("填充", "hatch"), ("图案填充", "hatch")]

/-- `ACTION_KEYWORDS` of the source. -/
def ACTION_KEYWORDS : List (String × String) :=
  [("draw", "draw"), ("create", "draw"), ("add", "draw"), ("make", "draw"),
   ("place", "draw"), ("insert", "draw"), ("modify", "modify"),
   ("change", "modify"), ("edit", "modify"), ("move", "move"),
   ("rotate", "rotate"), ("scale", "scale"), ("resize", "scale"),
   ("delete", "erase"), ("remove", "erase"), ("erase", "erase"),
   ("save", "save"),
   ("disegna", "draw"), ("crea", "draw"), ("aggiungi", "draw"),
   ("inserisci", "draw"), ("traccia", "draw"), ("modifica", "modify"),
   ("cambia", "modify"), ("sposta", "move"), ("ruota", "rotate"),
   ("scala", "scale"), ("ridimensiona", "scale"), ("elimina", "erase"),
   ("cancella", "erase"), ("rimuovi", "erase"), ("salva", "save"),
   ("画", "draw"), ("绘制", "draw"), ("创建", "draw"), ("添加", "draw"),
   ("制作", "draw"), ("放置", "draw"), ("修改", "modify"), ("更改", "modify"),
   ("调整", "modify"), ("移动", "move"), ("旋转", "rotate"), ("缩放", "scale"),
   ("删除", "erase"), ("移除", "erase"), ("擦除", "erase"), ("保存", "save")]

/-! ## Substring lookup (`keyword.lower() in text.lower()`) -/

/-- Is `pat` a prefix of `s` (plain character equality)? -/
def isPrefOf : List Char → List Char → Bool
  | [], _ => true
  | _ :: _, [] => false
  | p :: ps, c :: cs => p = c && isPrefOf ps cs

/-- Does `pat` occur as a contiguous substring of `s`? -/
def containsSub (pat : List Char) : List Char → Bool
  | [] => isPrefOf pat []
  | c :: rest => isPrefOf pat (c :: rest) || containsSub pat rest

/-- Case-insensitive occurrence of a keyword in a text. -/
def occursCI (kw : String) (t : String) : Bool :=
  containsSub (lowerChars kw.data) (lowerChars t.data)

/-- First-match-in-insertion-order table lookup shared by `identify_action`
and `identify_shape`. -/
def lookupKeyword (table : List (String × String)) (t : String) : Option String :=
  match table with
  | [] => none
  | (kw, tag) :: rest => if occursCI kw t then some tag else lookupKeyword rest t

/-- `identify_action` of the source. -/
def identify_action (t : String) : Option String := lookupKeyword ACTION_KEYWORDS t

/-- `identify_shape` of the source. -/
def identify_shape (t : String) : Option String := lookupKeyword SHAPE_KEYWORDS t

/-! ## Keyword-value patterns such as `radius\s*[=:]?\s*(\d+\.?\d*)` -/

/-- Strip a case-insensitive literal prefix, returning the remainder. -/
def stripCI : List Char → List Char → Option (List Char)
  | [], s => some s
  | _ :: _, [] => none
  | p :: ps, c :: cs => if p.toLower = c.toLower then stripCI ps cs else none

/-- `\s*[=:]?\s*` (deterministic: the classes are pairwise disjoint). -/
def sepSkip (s : List Char) : List Char :=
  let s1 := skipSpaces s
  let s2 :=
    match s1 with
    | c :: r => if c = '=' ∨ c = ':' then r else s1
    | [] => s1
  skipSpaces s2

/-- `kw\s*[=:]?\s*(\d+\.?\d*)` tried at one position. -/
def kwValAt (kw : List Char) (s : List Char) : Option NumLex :=
  match stripCI kw s with
  | none => none
  | some r => (matchUnsignedNum (sepSkip r)).map (·.1)

/-- `kw\s*(?:mid)?\s*[=:]?\s*(\d+\.?\d*)` tried at one position: the optional
middle word is tried first (greedy), falling back to its absence. -/
def kwOptValAt (kw mid : List Char) (s : List Char) : Option NumLex :=
  match stripCI kw s with
  | none => none
  | some r =>
    match stripCI mid (skipSpaces r) with
    | some r2 =>
      match matchUnsignedNum (sepSkip r2) with
      | some res => some res.1
      | none => (matchUnsignedNum (sepSkip (skipSpaces r))).map (·.1)
    | none => (matchUnsignedNum (sepSkip (skipSpaces r))).map (·.1)

/-- Search `kw\s*[=:]?\s*(\d+\.?\d*)` over a text, returning the capture. -/
def kwSearch (kw : String) (t : String) : Option NumLex :=
  reSearch (kwValAt kw.data) t.data

/-- Search `kw\s*(?:mid)?\s*[=:]?\s*(\d+\.?\d*)` over a text. -/
def kwOptSearch (kw mid : String) (t : String) : Option NumLex :=
  reSearch (kwOptValAt kw.data mid.data) t.data

/-! ## Color extraction

`_build_color_pattern` sorts the color surface forms by length, longest
first (Python's sort is stable, so insertion order breaks ties), joins them
into one alternation and compiles it case-insensitively; `extract_color`
searches it and looks the lower-cased matched text up in `COLOR_MAP`. -/

/-- The length-descending relation used to sort color surface forms. -/
def lenGE (a b : String) : Prop := b.length ≤ a.length

instance : DecidableRel lenGE := fun a b => Nat.decLe b.length a.length

/-- The color surface forms, sorted by length descending, stably
(insertion sort places an element before the first entry not longer
than it, matching Python's stable `sorted(..., reverse=True)`). -/
def sortedColors : List String :=
  List.insertionSort lenGE (COLOR_MAP.map Prod.fst)

/-- `COLOR_MAP.get`: first binding of a color name. -/
def colorLookup : List (String × Nat) → String → Option Nat
  | [], _ => none
  | (k, v) :: rest, n => if k = n then some v else colorLookup rest n

/-- The compiled color alternation tried at one position: the first surface
form, in sorted order, that is a case-insensitive prefix of the remainder. -/
def colorMatchAt (s : List Char) : Option String :=
  sortedColors.find? fun n => (stripCI n.data s).isSome

/-- `extract_color` of the source: leftmost match of the alternation, then
the matched text, lower-cased, looked up in `COLOR_MAP`. -/
def extract_color (t : String) : Option Nat :=
  (reSearch colorMatchAt t.data).bind (colorLookup COLOR_MAP)

/-! ## Word capture (`pattern\s*[=:]?\s*(\w+)`) and `.dwg` paths -/

/-- `\w` (ASCII core; the hatch pattern names the claims exercise are ASCII). -/
def isWordChar (c : Char) : Bool := c.isAlphanum || c = '_'

/-- `kw\s*[=:]?\s*(\w+)` tried at one position. -/
def kwWordAt (kw : List Char) (s : List Char) : Option (List Char) :=
  match stripCI kw s with
  | none => none
  | some r =>
    let w := (sepSkip r).takeWhile isWordChar
    if w.isEmpty then none else some w

/-- `(\S+\.dwg)` (case-insensitive) tried at one position: the longest
non-space run from here that ends in `.dwg` with at least one character
before the suffix. -/
def dwgAt (s : List Char) : Option (List Char) :=
  let run := s.takeWhile (fun c => !isSpc c)
  ((List.range run.length).reverse.find? fun i =>
      decide (1 ≤ i) && decide (i + 4 ≤ run.length) &&
        decide (lowerChars ((run.drop i).take 4) = ['.', 'd', 'w', 'g'])).map
    fun i => run.take (i + 4)

/-! ## The shape parameter parsers -/

/-- `_parse_generic` of the source. -/
def _parse_generic (t : String) : Params :=
  let coords := extract_coordinates t
  if coords.isEmpty then [] else [("points", .pts coords)]

/-- `_parse_line` of the source. -/
def _parse_line (t : String) : Params :=
  match extract_coordinates t with
  | c0 :: c1 :: _ => [("start", .pt c0), ("end", .pt c1)]
  | _ => [("start", .pt (0, 0)), ("end", .pt (100, 100))]

/-- `_parse_circle` of the source. -/
def _parse_circle (t : String) : Params :=
  let coords := extract_coordinates t
  let numbers := extract_numbers t
  let center : ℚ × ℚ :=
    match coords with
    | c :: _ => c
    | [] => (0, 0)
  let radiusKw :=
    match kwSearch "radius" t with
    | some n => some n
    | none => kwSearch "半径" t
  let radius : ℚ :=
    match radiusKw with
    | some n => n.val
    | none =>
      if coords ≠ [] ∧ 2 < numbers.length then
        match numbers.drop (2 * coords.length) with
        | r :: _ => r
        | [] => 50
      else if coords = [] ∧ numbers ≠ [] then
        match numbers with
        | n :: _ => n
        | [] => 50
      else 50
  [("center", .pt center), ("radius", .num radius)]

/-- `_parse_arc` of the source (the source also extracts the number list
here but never uses it; the English `radius` keyword is the only radius
override, and the Chinese angle patterns run after the English ones). -/
def _parse_arc (t : String) : Params :=
  let coords := extract_coordinates t
  let center : ℚ × ℚ :=
    match coords with
    | c :: _ => c
    | [] => (0, 0)
  let p0 : Params :=
    [("center", .pt center), ("radius", .num 50),
     ("start_angle", .num 0), ("end_angle", .num 90)]
  let p1 :=
    match kwSearch "radius" t with
    | some n => dictSet p0 "radius" (.num n.val)
    | none => p0
  let p2 :=
    match kwOptSearch "start" "angle" t with
    | some n => dictSet p1 "start_angle" (.num n.val)
    | none => p1
  let p3 :=
    match kwOptSearch "end" "angle" t with
    | some n => dictSet p2 "end_angle" (.num n.val)
    | none => p2
  let p4 :=
    match kwSearch "起始角" t with
    | some n => dictSet p3 "start_angle" (.num n.val)
    | none => p3
  match kwSearch "终止角" t with
  | some n => dictSet p4 "end_angle" (.num n.val)
  | none => p4

/-- `_parse_ellipse` of the source. -/
def _parse_ellipse (t : String) : Params :=
  let coords := extract_coordinates t
  let center : ℚ × ℚ :=
    match coords with
    | c :: _ => c
    | [] => (0, 0)
  let p0 : Params :=
    [("center", .pt center), ("major_axis", .num 100),
     ("minor_axis", .num 50), ("rotation", .num 0)]
  let p1 :=
    match kwOptSearch "major" "axis" t with
    | some n => dictSet p0 "major_axis" (.num n.val)
    | none => p0
  let p2 :=
    match kwOptSearch "minor" "axis" t with
    | some n => dictSet p1 "minor_axis" (.num n.val)
    | none => p1
  match kwSearch "rotation" t with
  | some n => dictSet p2 "rotation" (.num n.val)
  | none => p2

/-- `_parse_rectangle` of the source. -/
def _parse_rectangle (t : String) : Params :=
  match extract_coordinates t with
  | c0 :: c1 :: _ => [("corner1", .pt c0), ("corner2", .pt c1)]
  | _ =>
    let w0 : ℚ := 100
    let h0 : ℚ := 50
    let w1 :=
      match kwSearch "width" t with
      | some n => n.val
      | none => w0
    let h1 :=
      match kwSearch "height" t with
      | some n => n.val
      | none => h0
    let w2 :=
      match kwSearch "宽" t with
      | some n => n.val
      | none => w1
    let h2 :=
      match kwSearch "高" t with
      | some n => n.val
      | none => h1
    [("corner1", .pt (0, 0)), ("corner2", .pt (w2, h2))]

/-- `_parse_polyline` of the source. -/
def _parse_polyline (t : String) : Params :=
  let coords := extract_coordinates t
  let closed :=
    occursCI "closed" t || occursCI "close" t || occursCI "闭合" t || occursCI "封闭" t
  if 2 ≤ coords.length then
    [("points", .pts coords), ("closed", .bool closed)]
  else
    [("points", .pts [(0, 0), (50, 50), (100, 0)]), ("closed", .bool closed)]

/-- `_parse_text` of the source (a quoted span is never empty, so Python's
falsy-`or` default reduces to the `none` case). -/
def _parse_text (t : String) : Params :=
  let coords := extract_coordinates t
  let content := (extract_quoted_text t).getD "Text"
  let position : ℚ × ℚ :=
    match coords with
    | c :: _ => c
    | [] => (0, 0)
  let p0 : Params :=
    [("position", .pt position), ("text", .str content),
     ("height", .num (5 / 2)), ("rotation", .num 0)]
  let p1 :=
    match kwSearch "height" t with
    | some n => dictSet p0 "height" (.num n.val)
    | none => p0
  let p2 :=
    match kwSearch "高度" t with
    | some n => dictSet p1 "height" (.num n.val)
    | none => p1
  match kwSearch "rotation" t with
  | some n => dictSet p2 "rotation" (.num n.val)
  | none => p2

/-- `_parse_dimension` of the source. -/
def _parse_dimension (t : String) : Params :=
  match extract_coordinates t with
  | c0 :: c1 :: rest =>
    let midX : ℚ := (c0.1 + c1.1) / 2
    let midY : ℚ := (c0.2 + c1.2) / 2 + 10
    let tp : ℚ × ℚ :=
      match rest with
      | c2 :: _ => c2
      | [] => (midX, midY)
    [("start", .pt c0), ("end", .pt c1), ("text_position", .pt tp)]
  | _ =>
    [("start", .pt (0, 0)), ("end", .pt (100, 0)), ("text_position", .pt (50, 10))]

/-- `_parse_hatch` of the source. -/
def _parse_hatch (t : String) : Params :=
  let coords := extract_coordinates t
  let boundary :=
    if 3 ≤ coords.length then coords else [(0, 0), (100, 0), (100, 100), (0, 100)]
  let p0 : Params :=
    [("boundary_points", .pts boundary), ("pattern_name", .str "SOLID"),
     ("pattern_scale", .num 1)]
  let p1 :=
    match reSearch (kwWordAt "pattern".data) t.data with
    | some w => dictSet p0 "pattern_name" (.str (String.mk w).toUpper)
    | none => p0
  match kwSearch "scale" t with
  | some n => dictSet p1 "pattern_scale" (.num n.val)
  | none => p1

/-- `_parse_save` of the source (quoted spans are never empty, so Python's
falsy test on the path reduces to the `none` case). -/
def _parse_save (t : String) : Params :=
  let path :=
    match extract_quoted_text t with
    | some p => some p
    | none => (reSearch dwgAt t.data).map String.mk
  [("file_path", .str (path.getD "drawing.dwg"))]

/-! ## The orchestrator -/

/-- `parse_command` of the source.  The dynamic `getattr(self, "_parse_" +
shape)` dispatch is modelled by name: every method the class defines is a
branch, and a tag with no method falls back to `_parse_generic`. -/
def parse_command (t : String) : ParsedCommand :=
  let action := (identify_action t).getD "draw"
  match identify_shape t with
  | none =>
    { action := action, shape := none, parameters := [], raw_text := t,
      confidence := 3 / 10 }
  | some shape =>
    let params :=
      if shape = "line" then _parse_line t
      else if shape = "circle" then _parse_circle t
      else if shape = "arc" then _parse_arc t
      else if shape = "ellipse" then _parse_ellipse t
      else if shape = "rectangle" then _parse_rectangle t
      else if shape = "polyline" then _parse_polyline t
      else if shape = "text" then _parse_text t
      else if shape = "dimension" then _parse_dimension t
      else if shape = "hatch" then _parse_hatch t
      else if shape = "save" then _parse_save t
      else _parse_generic t
    let merged :=
      match extract_color t with
      | some c => dictSet params "color" (.num c)
      | none => params
    { action := action, shape := some shape, parameters := merged,
      raw_text := t, confidence := if merged.isEmpty then 1 / 2 else 4 / 5 }

/-! ## Claim-level specification definitions

`circleRadiusClaimed` follows the words of the specification's circle row
(claim C1, reused by claim C3's comparison for arcs): explicit keyword,
else first leftover number after discarding two numbers per coordinate,
else (when no coordinates) the first number, else 50. -/

/-- The radius fallback chain exactly as the specification states it. -/
def circleRadiusClaimed (t : String) : ℚ :=
  let coords := extract_coordinates t
  let numbers := extract_numbers t
  match kwSearch "radius" t with
  | some n => n.val
  | none =>
    match kwSearch "半径" t with
    | some n => n.val
    | none =>
      if coords ≠ [] then
        match numbers.drop (2 * coords.length) with
        | r :: _ => r
        | [] => 50
      else
        match numbers with
        | n :: _ => n
        | [] => 50

/-! ## Helper lemmas: dictionaries -/

theorem dictGet_dictSet (ps : Params) (k k2 : String) (v : PValue) :
    dictGet (dictSet ps k v) k2 = if k = k2 then some v else dictGet ps k2 := by
  induction ps with
  | nil =>
    simp [dictSet, dictGet]
  | cons hd tl ih =>
    obtain ⟨k0, v0⟩ := hd
    by_cases h0 : k0 = k
    · subst h0
      by_cases h : k0 = k2 <;> simp [dictSet, dictGet, h]
    · by_cases h1 : k0 = k2
      · subst h1
        have hne : ¬(k = k0) := fun hc => h0 hc.symm
        simp [dictSet, dictGet, h0, hne]
      · simp [dictSet, dictGet, h0, h1, ih]

theorem dictSet_ne_nil (ps : Params) (k : String) (v : PValue) :
    dictSet ps k v ≠ [] := by
  cases ps with
  | nil => simp [dictSet]
  | cons hd tl =>
    obtain ⟨k0, v0⟩ := hd
    by_cases h : k0 = k <;> simp [dictSet, h]

/-! ## Helper lemmas: `reSearch` as leftmost match -/

theorem reSearch_eq_none_iff {α : Type} (f : List Char → Option α)
    (hf : f [] = none) (s : List Char) :
    reSearch f s = none ↔ ∀ i, f (s.drop i) = none := by
  induction s with
  | nil =>
    simp only [reSearch, List.drop_nil, true_iff]
    intro i
    exact hf
  | cons c rest ih =>
    cases h : f (c :: rest) with
    | some x =>
      simp only [reSearch, h]
      constructor
      · intro hcontr
        exact absurd hcontr (by simp)
      · intro hall
        have := hall 0
        simp [h] at this
    | none =>
      simp only [reSearch, h]
      rw [ih]
      constructor
      · intro hall i
        cases i with
        | zero => simpa using h
        | succ j => simpa using hall j
      · intro hall j
        simpa using hall (j + 1)

theorem reSearch_eq_some_iff {α : Type} (f : List Char → Option α)
    (hf : f [] = none) (s : List Char) (x : α) :
    reSearch f s = some x ↔
      ∃ i, f (s.drop i) = some x ∧ ∀ j < i, f (s.drop j) = none := by
  induction s with
  | nil =>
    simp only [reSearch, List.drop_nil]
    constructor
    · intro hcontr
      exact absurd hcontr (by simp)
    · rintro ⟨i, hi, -⟩
      rw [hf] at hi
      exact absurd hi (by simp)
  | cons c rest ih =>
    cases h : f (c :: rest) with
    | some y =>
      simp only [reSearch, h, Option.some_inj]
      constructor
      · rintro rfl
        exact ⟨0, by simpa using h, by omega⟩
      · rintro ⟨i, hi, hmin⟩
        cases i with
        | zero =>
          simp only [List.drop_zero] at hi
          rw [h] at hi
          exact Option.some_inj.mp hi
        | succ j =>
          have := hmin 0 (by omega)
          simp only [List.drop_zero] at this
          rw [h] at this
          exact absurd this (by simp)
    | none =>
      simp only [reSearch, h]
      rw [ih]
      constructor
      · rintro ⟨i, hi, hmin⟩
        refine ⟨i + 1, by simpa using hi, ?_⟩
        intro j hj
        cases j with
        | zero => simpa using h
        | succ j0 => simpa using hmin j0 (by omega)
      · rintro ⟨i, hi, hmin⟩
        cases i with
        | zero =>
          simp only [List.drop_zero] at hi
          rw [h] at hi
          exact absurd hi (by simp)
        | succ j =>
          exact ⟨j, by simpa using hi, fun j0 hj0 => by simpa using hmin (j0 + 1) (by omega)⟩

/-! ## Helper lemmas: first-match keyword lookup -/

theorem lookupKeyword_eq_some_iff (tbl : List (String × String)) (t : String) (v : String) :
    lookupKeyword tbl t = some v ↔
      ∃ pre kw post, tbl = pre ++ (kw, v) :: post ∧ occursCI kw t = true ∧
        ∀ p ∈ pre, occursCI p.1 t = false := by
  induction tbl with
  | nil =>
    simp only [lookupKeyword]
    constructor
    · intro hcontr
      exact absurd hcontr (by simp)
    · rintro ⟨pre, kw, post, hcontr, -, -⟩
      exact absurd hcontr (by simp)
  | cons hd tl ih =>
    obtain ⟨kw0, v0⟩ := hd
    by_cases h : occursCI kw0 t
    · simp only [lookupKeyword, h, if_pos, Option.some_inj]
      constructor
      · rintro rfl
        exact ⟨[], kw0, tl, by simp, h, by simp⟩
      · rintro ⟨pre, kw, post, heq, hkw, hpre⟩
        cases pre with
        | nil =>
          simp only [List.nil_append, List.cons.injEq, Prod.mk.injEq] at heq
          exact heq.1.2
        | cons p0 pre0 =>
          simp only [List.cons_append, List.cons.injEq] at heq
          obtain ⟨heq1, heq2⟩ := heq
          subst heq1
          have hp0 : occursCI kw0 t = false := hpre (kw0, v0) (by simp)
          rw [hp0] at h
          exact absurd h (by simp)
    · have hf : occursCI kw0 t = false := by simpa using h
      simp only [lookupKeyword, hf, Bool.false_eq_true, if_false]
      rw [ih]
      constructor
      · rintro ⟨pre, kw, post, heq, hkw, hpre⟩
        refine ⟨(kw0, v0) :: pre, kw, post, by rw [heq]; rfl, hkw, ?_⟩
        intro p hp
        rcases List.mem_cons.mp hp with hp0 | hp1
        · rw [hp0]
          exact hf
        · exact hpre p hp1
      · rintro ⟨pre, kw, post, heq, hkw, hpre⟩
        cases pre with
        | nil =>
          simp only [List.nil_append, List.cons.injEq, Prod.mk.injEq] at heq
          rw [← heq.1.1] at hkw
          rw [hf] at hkw
          exact absurd hkw (by simp)
        | cons p0 pre0 =>
          simp only [List.cons_append, List.cons.injEq] at heq
          exact ⟨pre0, kw, post, heq.2, hkw, fun p hp => hpre p (by simp [hp])⟩

theorem lookupKeyword_eq_none_iff (tbl : List (String × String)) (t : String) :
    lookupKeyword tbl t = none ↔ ∀ p ∈ tbl, occursCI p.1 t = false := by
  induction tbl with
  | nil => simp [lookupKeyword]
  | cons hd tl ih =>
    obtain ⟨kw0, v0⟩ := hd
    cases h : occursCI kw0 t with
    | true =>
      simp only [lookupKeyword, h, if_true]
      constructor
      · intro hc
        exact absurd hc (by simp)
      · intro hall
        have h0 : occursCI kw0 t = false := hall (kw0, v0) (by simp)
        rw [h] at h0
        exact absurd h0 (by simp)
    | false =>
      simp only [lookupKeyword, h, Bool.false_eq_true, if_false]
      rw [ih]
      constructor
      · intro hall p hp
        rcases List.mem_cons.mp hp with rfl | hp1
        · exact h
        · exact hall p hp1
      · intro hall p hp
        exact hall p (by simp [hp])

theorem lookupKeyword_val_mem {tbl : List (String × String)} {t v : String}
    (h : lookupKeyword tbl t = some v) : v ∈ tbl.map Prod.snd := by
  rcases (lookupKeyword_eq_some_iff tbl t v).mp h with ⟨pre, kw, post, heq, -, -⟩
  rw [heq]
  simp

/-! ## Helper lemmas: `takeWhile`, `dropWhile`, digit runs -/

theorem takeWhile_all (p : Char → Bool) (l : List Char) : (l.takeWhile p).all p = true := by
  induction l with
  | nil => simp
  | cons c rest ih =>
    by_cases h : p c <;> simp [List.takeWhile_cons, h, ih]

theorem takeWhile_append_all {p : Char → Bool} {l : List Char} (h : l.all p = true)
    (r : List Char) : (l ++ r).takeWhile p = l ++ r.takeWhile p := by
  induction l with
  | nil => simp
  | cons c rest ih =>
    simp only [List.all_cons, Bool.and_eq_true] at h
    simp [List.takeWhile_cons, h.1, ih h.2]

theorem dropWhile_append_all {p : Char → Bool} {l : List Char} (h : l.all p = true)
    (r : List Char) : (l ++ r).dropWhile p = r.dropWhile p := by
  induction l with
  | nil => simp
  | cons c rest ih =>
    simp only [List.all_cons, Bool.and_eq_true] at h
    simp [List.dropWhile_cons, h.1, ih h.2]

theorem takeWhile_eq_self_all {p : Char → Bool} {l : List Char} (h : l.all p = true) :
    l.takeWhile p = l := by
  have := takeWhile_append_all h []
  simpa using this

theorem dropWhile_eq_nil_all {p : Char → Bool} {l : List Char} (h : l.all p = true) :
    l.dropWhile p = [] := by
  have := dropWhile_append_all h []
  simpa using this

theorem all_take {p : Char → Bool} {l : List Char} (h : l.all p = true) (k : Nat) :
    (l.take k).all p = true :=
  List.all_eq_true.mpr fun c hc =>
    List.all_eq_true.mp h c (List.take_subset k l hc)

/-! ## Helper lemmas: every captured lexeme is a well-formed float literal -/

theorem isDig_dot : isDig '.' = false := by decide

theorem pyFloat_render {n : NumLex} (h : WFnum n) : pyFloat? n.render = some n.val := by
  obtain ⟨hip, hipd, hfpd, hdot⟩ := h
  obtain ⟨hneg, ip, hd, fp⟩ := n
  simp only at hip hipd hfpd hdot
  cases ip with
  | nil => exact absurd rfl hip
  | cons c cs =>
    have hall : (c :: cs).all isDig = true := hipd
    have hcdig : isDig c = true := by
      simp only [List.all_cons, Bool.and_eq_true] at hall
      exact hall.1
    have hall2 : (c :: cs).all isDig = true := hipd
    have hcne1 : ¬(c = '-') := fun hc => by rw [hc] at hcdig; exact absurd hcdig (by decide)
    have hcne2 : ¬(c = '+') := fun hc => by rw [hc] at hcdig; exact absurd hcdig (by decide)
    cases hd with
    | false =>
      have hfp : fp = [] := by
        by_contra hfp
        exact absurd (hdot hfp) (by simp)
      subst hfp
      have htw : List.takeWhile isDig (c :: cs) = c :: cs := takeWhile_eq_self_all hall2
      have hdw : List.dropWhile isDig (c :: cs) = [] := dropWhile_eq_nil_all hall2
      cases hneg with
      | false =>
        simp only [NumLex.render, NumLex.val, Bool.false_eq_true, if_false,
          List.nil_append, List.append_nil]
        unfold pyFloat?
        simp [takeDigits, hcne1, hcne2, htw, hdw]
      | true =>
        simp only [NumLex.render, NumLex.val, if_true, List.append_nil,
          List.singleton_append]
        unfold pyFloat?
        simp [takeDigits, htw, hdw]
    | true =>
      have htw2 : List.takeWhile isDig (c :: (cs ++ '.' :: fp)) = c :: cs := by
        have h0 := takeWhile_append_all hall2 ('.' :: fp)
        simpa [List.takeWhile_cons, isDig_dot] using h0
      have hdw2 : List.dropWhile isDig (c :: (cs ++ '.' :: fp)) = '.' :: fp := by
        have h0 := dropWhile_append_all hall2 ('.' :: fp)
        simpa [List.dropWhile_cons, isDig_dot] using h0
      have htwf : List.takeWhile isDig fp = fp := takeWhile_eq_self_all hfpd
      have hdwf : List.dropWhile isDig fp = [] := dropWhile_eq_nil_all hfpd
      cases hneg with
      | false =>
        simp only [NumLex.render, NumLex.val, Bool.false_eq_true, if_false,
          List.nil_append, List.append_assoc, List.singleton_append, List.cons_append]
        unfold pyFloat?
        simp [takeDigits, hcne1, hcne2, htw2, hdw2, htwf, hdwf]
      | true =>
        simp only [NumLex.render, NumLex.val, if_true, List.append_assoc,
          List.singleton_append, List.cons_append]
        unfold pyFloat?
        simp [takeDigits, htw2, hdw2, htwf, hdwf]

theorem not_isEmpty_ne {l : List Char} (h : ¬ l.isEmpty = true) : l ≠ [] := by
  cases l <;> simp_all

theorem matchUnsignedNum_WF {s r : List Char} {n : NumLex}
    (h : matchUnsignedNum s = some (n, r)) : WFnum n ∧ n.neg = false := by
  unfold matchUnsignedNum at h
  split at h
  · exact absurd h (by simp)
  · rename_i hne
    split at h
    · rename_i r2 heq
      simp only [Option.some_inj, Prod.mk.injEq] at h
      obtain ⟨h1, -⟩ := h
      subst h1
      exact ⟨⟨not_isEmpty_ne hne, takeWhile_all _ _, takeWhile_all _ _, fun _ => rfl⟩, rfl⟩
    · simp only [Option.some_inj, Prod.mk.injEq] at h
      obtain ⟨h1, -⟩ := h
      subst h1
      exact ⟨⟨not_isEmpty_ne hne, takeWhile_all _ _, by simp, fun hc => absurd rfl hc⟩, rfl⟩

theorem matchSignedNum_WF {s r : List Char} {n : NumLex}
    (h : matchSignedNum s = some (n, r)) : WFnum n := by
  unfold matchSignedNum at h
  split at h
  · split at h
    · rename_i pr heq
      simp only [Option.some_inj, Prod.mk.injEq] at h
      obtain ⟨h1, -⟩ := h
      subst h1
      obtain ⟨⟨w1, w2, w3, w4⟩, -⟩ := matchUnsignedNum_WF heq
      exact ⟨w1, w2, w3, w4⟩
    · exact absurd h (by simp)
  · exact (matchUnsignedNum_WF h).1

theorem numScan_WF (fuel : Nat) : ∀ (s : List Char), ∀ n ∈ numScan fuel s, WFnum n := by
  induction fuel with
  | zero =>
    intro s n hn
    simp [numScan] at hn
  | succ f ih =>
    intro s n hn
    cases s with
    | nil => simp [numScan] at hn
    | cons c rest =>
      simp only [numScan] at hn
      cases hm : matchSignedNum (c :: rest) with
      | some pr =>
        obtain ⟨n1, r2⟩ := pr
        rw [hm] at hn
        rcases List.mem_cons.mp hn with rfl | htl
        · exact matchSignedNum_WF hm
        · exact ih r2 n htl
      | none =>
        rw [hm] at hn
        exact ih rest n hn

theorem mem_digitCands_WF {neg : Bool} {d1 rest : List Char} {pr : NumLex × List Char}
    (hd1 : d1.all isDig = true) (hne : d1 ≠ []) (h : pr ∈ digitCands neg d1 rest) :
    WFnum pr.1 := by
  unfold digitCands at h
  rcases List.mem_map.mp h with ⟨i, hi, heq⟩
  subst heq
  have hilt : i < d1.length := List.mem_range.mp hi
  refine ⟨?_, all_take hd1 _, by simp, fun hc => absurd rfl hc⟩
  intro hc
  rcases List.take_eq_nil_iff.mp hc with h0 | h0
  · omega
  · exact hne h0

theorem mem_dotCands_WF {neg : Bool} {d1 d2 rest : List Char} {pr : NumLex × List Char}
    (hd1 : d1.all isDig = true) (hne : d1 ≠ []) (hd2 : d2.all isDig = true)
    (h : pr ∈ dotCands neg d1 d2 rest) : WFnum pr.1 := by
  unfold dotCands at h
  rcases List.mem_map.mp h with ⟨i, hi, heq⟩
  subst heq
  exact ⟨hne, hd1, all_take hd2 _, fun _ => rfl⟩

theorem g1candsAux_WF {neg : Bool} {s1 : List Char} {pr : NumLex × List Char}
    (h : pr ∈ g1candsAux neg s1) : WFnum pr.1 := by
  unfold g1candsAux at h
  split at h
  · exact absurd h (by simp)
  · rename_i hne
    split at h
    · rcases List.mem_append.mp h with h1 | h1
      · exact mem_dotCands_WF (takeWhile_all _ _) (not_isEmpty_ne hne) (takeWhile_all _ _) h1
      · exact mem_digitCands_WF (takeWhile_all _ _) (not_isEmpty_ne hne) h1
    · exact mem_digitCands_WF (takeWhile_all _ _) (not_isEmpty_ne hne) h

theorem g1cands_WF {s : List Char} {pr : NumLex × List Char} (h : pr ∈ g1cands s) :
    WFnum pr.1 := by
  unfold g1cands at h
  split at h <;> exact g1candsAux_WF h

theorem matchCoordBody_WF {s2 r : List Char} {pr : NumLex × NumLex}
    (h : matchCoordBody s2 = some (pr, r)) : WFnum pr.1 ∧ WFnum pr.2 := by
  unfold matchCoordBody at h
  split at h
  · exact absurd h (by simp)
  · rename_i n1 rest1 hfind
    have hwf1 := g1cands_WF (List.mem_of_find?_eq_some hfind)
    split at h
    · split at h
      · rename_i n2 r3 heq2
        split at h <;>
          · simp only [Option.some_inj, Prod.mk.injEq] at h
            obtain ⟨h1, -⟩ := h
            subst h1
            exact ⟨hwf1, matchSignedNum_WF heq2⟩
      · exact absurd h (by simp)
    · exact absurd h (by simp)

theorem matchCoordAt_WF {s r : List Char} {pr : NumLex × NumLex}
    (h : matchCoordAt s = some (pr, r)) : WFnum pr.1 ∧ WFnum pr.2 := by
  unfold matchCoordAt at h
  split at h <;> exact matchCoordBody_WF h

theorem coordScan_WF (fuel : Nat) :
    ∀ (s : List Char), ∀ pr ∈ coordScan fuel s, WFnum pr.1 ∧ WFnum pr.2 := by
  induction fuel with
  | zero =>
    intro s pr hpr
    simp [coordScan] at hpr
  | succ f ih =>
    intro s pr hpr
    cases s with
    | nil => simp [coordScan] at hpr
    | cons c rest =>
      simp only [coordScan] at hpr
      cases hm : matchCoordAt (c :: rest) with
      | some res =>
        obtain ⟨pr1, r5⟩ := res
        rw [hm] at hpr
        rcases List.mem_cons.mp hpr with rfl | htl
        · exact matchCoordAt_WF hm
        · exact ih r5 pr htl
      | none =>
        rw [hm] at hpr
        exact ih rest pr hpr

theorem kwValAt_WF {kw s : List Char} {n : NumLex} (h : kwValAt kw s = some n) :
    WFnum n := by
  unfold kwValAt at h
  split at h
  · exact absurd h (by simp)
  · rename_i r hstrip
    rcases Option.map_eq_some'.mp h with ⟨pr, hpr, hfst⟩
    obtain ⟨n0, r0⟩ := pr
    rw [← hfst]
    exact (matchUnsignedNum_WF hpr).1

theorem kwOptValAt_WF {kw mid s : List Char} {n : NumLex}
    (h : kwOptValAt kw mid s = some n) : WFnum n := by
  unfold kwOptValAt at h
  split at h
  · exact absurd h (by simp)
  · rename_i r hstrip
    split at h
    · rename_i r2 hstrip2
      split at h
      · rename_i res heq
        simp only [Option.some_inj] at h
        subst h
        obtain ⟨n0, r0⟩ := res
        exact (matchUnsignedNum_WF heq).1
      · rcases Option.map_eq_some'.mp h with ⟨pr, hpr, hfst⟩
        obtain ⟨n0, r0⟩ := pr
        rw [← hfst]
        exact (matchUnsignedNum_WF hpr).1
    · rcases Option.map_eq_some'.mp h with ⟨pr, hpr, hfst⟩
      obtain ⟨n0, r0⟩ := pr
      rw [← hfst]
      exact (matchUnsignedNum_WF hpr).1

theorem reSearch_pred {α : Type} {P : α → Prop} {f : List Char → Option α}
    (hP : ∀ s y, f s = some y → P y) :
    ∀ s y, reSearch f s = some y → P y := by
  intro s
  induction s with
  | nil =>
    intro y h
    simp [reSearch] at h
  | cons c rest ih =>
    intro y h
    simp only [reSearch] at h
    cases hm : f (c :: rest) with
    | some z =>
      rw [hm] at h
      simp only [Option.some_inj] at h
      subst h
      exact hP _ _ hm
    | none =>
      rw [hm] at h
      exact ih y h

/-! ## Helper lemmas: color alternation -/

instance : IsTotal String lenGE :=
  ⟨fun a b => le_total b.length a.length⟩

instance : IsTrans String lenGE :=
  ⟨fun _ _ _ h1 h2 => le_trans h2 h1⟩

theorem sortedColors_sorted : List.Sorted lenGE sortedColors :=
  List.sorted_insertionSort lenGE (COLOR_MAP.map Prod.fst)

theorem sortedColors_perm : sortedColors.Perm (COLOR_MAP.map Prod.fst) :=
  List.perm_insertionSort lenGE (COLOR_MAP.map Prod.fst)

theorem find?_sorted_max {p : String → Bool} :
    ∀ {l : List String}, l.Sorted lenGE → ∀ {c : String}, l.find? p = some c →
      ∀ c2 ∈ l, p c2 = true → c2.length ≤ c.length := by
  intro l
  induction l with
  | nil =>
    intro _ c h
    simp at h
  | cons a tl ih =>
    intro hs c hf c2 hmem hp
    obtain ⟨ha, hs2⟩ := List.sorted_cons.mp hs
    cases hpa : p a with
    | true =>
      rw [List.find?_cons_of_pos _ hpa] at hf
      have hc : c = a := (Option.some_inj.mp hf).symm
      subst hc
      rcases List.mem_cons.mp hmem with rfl | h2
      · exact le_refl _
      · exact ha c2 h2
    | false =>
      rw [List.find?_cons_of_neg _ (by simp [hpa])] at hf
      rcases List.mem_cons.mp hmem with rfl | h2
      · rw [hpa] at hp
        exact absurd hp (by simp)
      · exact ih hs2 hf c2 h2 hp

theorem stripCI_isSome_iff (p : List Char) :
    ∀ s, (stripCI p s).isSome = true ↔ isPrefOf (lowerChars p) (lowerChars s) = true := by
  induction p with
  | nil =>
    intro s
    simp [stripCI, isPrefOf, lowerChars]
  | cons c cs ih =>
    intro s
    cases s with
    | nil => simp [stripCI, isPrefOf, lowerChars]
    | cons d ds =>
      by_cases h : c.toLower = d.toLower
      · simp [stripCI, isPrefOf, lowerChars, h, ih ds]
      · simp [stripCI, isPrefOf, lowerChars, h]

theorem containsSub_iff_drop (pat : List Char) :
    ∀ s, containsSub pat s = true ↔ ∃ i, isPrefOf pat (s.drop i) = true := by
  intro s
  induction s with
  | nil =>
    simp only [containsSub]
    constructor
    · intro h
      exact ⟨0, h⟩
    · rintro ⟨i, hi⟩
      simpa using hi
  | cons c rest ih =>
    simp only [containsSub, Bool.or_eq_true]
    rw [ih]
    constructor
    · rintro (h | ⟨i, hi⟩)
      · exact ⟨0, h⟩
      · exact ⟨i + 1, by simpa using hi⟩
    · rintro ⟨i, hi⟩
      cases i with
      | zero => exact Or.inl (by simpa using hi)
      | succ j => exact Or.inr ⟨j, by simpa using hi⟩

theorem lowerChars_drop (l : List Char) (i : Nat) :
    lowerChars (l.drop i) = (lowerChars l).drop i := by
  simp [lowerChars, List.map_drop]

theorem occursCI_iff_stripCI (kw t : String) :
    occursCI kw t = true ↔ ∃ i, (stripCI kw.data (t.data.drop i)).isSome = true := by
  unfold occursCI
  rw [containsSub_iff_drop]
  constructor
  · rintro ⟨i, hi⟩
    refine ⟨i, ?_⟩
    rw [stripCI_isSome_iff, lowerChars_drop]
    exact hi
  · rintro ⟨i, hi⟩
    rw [stripCI_isSome_iff, lowerChars_drop] at hi
    exact ⟨i, hi⟩

theorem colorLookup_mem {l : List (String × Nat)} {n : String}
    (h : n ∈ l.map Prod.fst) : (colorLookup l n).isSome = true := by
  induction l with
  | nil => simp at h
  | cons hd tl ih =>
    obtain ⟨k, v⟩ := hd
    by_cases hk : k = n
    · simp [colorLookup, hk]
    · simp only [List.map_cons, List.mem_cons] at h
      rcases h with h | h
      · exact absurd h.symm hk
      · simp [colorLookup, hk, ih h]

theorem colorMatchAt_nil : colorMatchAt [] = none := by decide

theorem colorMatchAt_eq_none_iff (s : List Char) :
    colorMatchAt s = none ↔ ∀ n ∈ COLOR_MAP.map Prod.fst, (stripCI n.data s).isSome = false := by
  unfold colorMatchAt
  rw [List.find?_eq_none]
  constructor
  · intro hall n hn
    have := hall n (sortedColors_perm.mem_iff.mpr hn)
    simpa using this
  · intro hall n hn
    have := hall n (sortedColors_perm.mem_iff.mp hn)
    simp [this]

set_option maxRecDepth 100000

/-! ## Claim theorems -/

theorem parse_circle_params (t : String) :
    _parse_circle t =
      [("center", .pt ((extract_coordinates t).headD (0, 0))),
       ("radius", .num (circleRadiusClaimed t))] := by
  unfold _parse_circle circleRadiusClaimed
  cases h1 : kwSearch "radius" t with
  | some n =>
    cases hco : extract_coordinates t with
    | nil => simp [h1, hco]
    | cons c cs => simp [h1, hco]
  | none =>
    cases h2 : kwSearch "半径" t with
    | some n =>
      cases hco : extract_coordinates t with
      | nil => simp [h1, h2, hco]
      | cons c cs => simp [h1, h2, hco]
    | none =>
      cases hco : extract_coordinates t with
      | nil =>
        cases hnum : extract_numbers t with
        | nil => simp [h1, h2, hco, hnum]
        | cons q qs => simp [h1, h2, hco, hnum]
      | cons c cs =>
        by_cases hlen : 2 < (extract_numbers t).length
        · simp [h1, h2, hco, hlen]
        · have hd : (extract_numbers t).drop (2 * (cs.length + 1)) = [] := by
            rw [List.drop_eq_nil_iff]
            omega
          simp [h1, h2, hco, hlen, hd]

/-- C1: for circle commands the radius follows the spec's fallback chain —
explicit `radius=`/`半径=` keyword, else the first number left over after
discarding two numbers per extracted coordinate, else (with no coordinates)
the first extracted number, else 50 — the center is the first coordinate or
(0,0), and the quoted example parses exactly as stated. -/
theorem circle_radius_fallback_chain :
    (∀ t : String,
        dictGet (_parse_circle t) "radius" = some (.num (circleRadiusClaimed t)) ∧
        dictGet (_parse_circle t) "center" =
          some (.pt ((extract_coordinates t).headD (0, 0)))) ∧
    parse_command "draw a circle at (100, 100) with radius 50" =
      { action := "draw", shape := some "circle",
        parameters := [("center", .pt (100, 100)), ("radius", .num 50)],
        raw_text := "draw a circle at (100, 100) with radius 50",
        confidence := 4 / 5 } := by
  constructor
  · intro t
    rw [parse_circle_params t]
    constructor
    · with_unfolding_all rfl
    · with_unfolding_all rfl
  · with_unfolding_all rfl

/-- C2: when no shape surface form occurs, the parser returns the degraded
record — no shape, empty parameters, the original text, confidence 0.3, and
the action from the first matching action keyword (default draw). -/
theorem no_shape_degraded (t : String) (h : identify_shape t = none) :
    parse_command t =
      { action := (identify_action t).getD "draw", shape := none,
        parameters := [], raw_text := t, confidence := 3 / 10 } := by
  unfold parse_command
  rw [h]

/-- Witness for C2 at a concrete input with no shape keyword. -/
theorem no_shape_degraded_witness :
    identify_shape "hello" = none ∧
    parse_command "hello" =
      { action := (identify_action "hello").getD "draw", shape := none,
        parameters := [], raw_text := "hello", confidence := 3 / 10 } :=
  ⟨by with_unfolding_all rfl, no_shape_degraded "hello" (by with_unfolding_all rfl)⟩

/-- C8: `raw_text` is the unmodified input and re-parsing it reproduces the
same `ParsedCommand` — the parser is a pure function of its input. -/
theorem parse_command_roundtrip (t : String) :
    (parse_command t).raw_text = t ∧
    parse_command ((parse_command t).raw_text) = parse_command t := by
  have h : (parse_command t).raw_text = t := by
    unfold parse_command
    cases hs : identify_shape t <;> rfl
  exact ⟨h, by rw [h]⟩

/-- C3 counterexample: on "draw arc (10,20) 30" the shape is arc, no radius
keyword occurs, coordinates and numbers leave 30 as the leftover number, so
the claimed circle fallback gives 30 — but the arc parser returns radius 50
(it has no Chinese radius keyword and no leftover-number fallback). -/
theorem arc_radius_counterexample :
    identify_shape "draw arc (10,20) 30" = some "arc" ∧
    extract_coordinates "draw arc (10,20) 30" = [(10, 20)] ∧
    extract_numbers "draw arc (10,20) 30" = [10, 20, 30] ∧
    kwSearch "radius" "draw arc (10,20) 30" = none ∧
    kwSearch "半径" "draw arc (10,20) 30" = none ∧
    circleRadiusClaimed "draw arc (10,20) 30" = 30 ∧
    dictGet (parse_command "draw arc (10,20) 30").parameters "radius" =
      some (.num 50) ∧
    (50 : ℚ) ≠ 30 := by
  refine ⟨?_, ?_, ?_, ?_, ?_, ?_, ?_, by norm_num⟩ <;> with_unfolding_all rfl

/-- C3 (amended): for arcs the center is the first coordinate or (0,0); the
radius comes from the explicit English `radius=` keyword only, else defaults
to 50 (neither `半径` nor the circle leftover-number fallback applies); the
angles come from the Chinese keywords `起始角`/`终止角` first (they are
checked after and so override), else the English `start`/`end` keywords,
else the defaults 0 and 90. -/
theorem arc_params_resolution (t : String) :
    dictGet (_parse_arc t) "center" =
      some (.pt ((extract_coordinates t).headD (0, 0))) ∧
    dictGet (_parse_arc t) "radius" =
      some (.num (match kwSearch "radius" t with
        | some n => n.val
        | none => 50)) ∧
    dictGet (_parse_arc t) "start_angle" =
      some (.num (match kwSearch "起始角" t with
        | some n => n.val
        | none =>
          match kwOptSearch "start" "angle" t with
          | some n => n.val
          | none => 0)) ∧
    dictGet (_parse_arc t) "end_angle" =
      some (.num (match kwSearch "终止角" t with
        | some n => n.val
        | none =>
          match kwOptSearch "end" "angle" t with
          | some n => n.val
          | none => 90)) := by
  unfold _parse_arc
  cases hr : kwSearch "radius" t <;>
    cases hs1 : kwOptSearch "start" "angle" t <;>
      cases he1 : kwOptSearch "end" "angle" t <;>
        cases hs2 : kwSearch "起始角" t <;>
          cases he2 : kwSearch "终止角" t <;>
            cases hco : extract_coordinates t <;>
              simp [hr, hs1, he1, hs2, he2, hco, dictGet_dictSet, dictGet]

/-- C4 counterexample: a corner-bracket span earlier in the text wins over a
later straight-double-quoted span (the search is leftmost, not prioritized
by quote style), and a span opened by a single quote and closed by a double
quote is matched by the first alternative as one span. -/
theorem quoted_priority_counterexample :
    extract_quoted_text "「你好」 \"hi\"" = some "你好" ∧
    extract_quoted_text "「你好」 \"hi\"" ≠ some "hi" ∧
    extract_quoted_text "'x' \"y\"" = some "x" := by
  have h1 : extract_quoted_text "「你好」 \"hi\"" = some "你好" := by
    with_unfolding_all rfl
  refine ⟨h1, ?_, by with_unfolding_all rfl⟩
  rw [h1]
  decide

/-- C4 (amended): extract_quoted_text returns the group of the leftmost
position at which the compiled alternation matches — a straight-quote span
(opened and closed by either straight quote), else a straight-double-quote
span whose content may hold single quotes, else a corner-bracket span — and
none exactly when no position matches. -/
theorem quoted_leftmost_characterization :
    (∀ (t g : String),
        extract_quoted_text t = some g ↔
          ∃ i, qAltAt (t.data.drop i) = some g.data ∧
            ∀ j < i, qAltAt (t.data.drop j) = none) ∧
    (∀ t : String,
        extract_quoted_text t = none ↔ ∀ i, qAltAt (t.data.drop i) = none) := by
  have hnil : qAltAt [] = none := rfl
  constructor
  · intro t g
    unfold extract_quoted_text
    rw [Option.map_eq_some']
    constructor
    · rintro ⟨g0, hg0, rfl⟩
      rcases (reSearch_eq_some_iff qAltAt hnil t.data g0).mp hg0 with ⟨i, hi, hmin⟩
      exact ⟨i, hi, hmin⟩
    · rintro ⟨i, hi, hmin⟩
      exact ⟨g.data, (reSearch_eq_some_iff qAltAt hnil t.data g.data).mpr ⟨i, hi, hmin⟩, rfl⟩
  · intro t
    unfold extract_quoted_text
    rw [Option.map_eq_none']
    exact reSearch_eq_none_iff qAltAt hnil t.data

/-- C5: action and shape lookup return the tag of the first table entry, in
insertion order, whose surface form occurs case-insensitively as a substring
of the text; in particular "draw a polyline" yields tag "line" because the
entry ("line","line") precedes ("polyline","polyline"), even though the
longer surface form also occurs. -/
theorem lookup_first_table_entry :
    (∀ (t v : String),
        identify_shape t = some v ↔
          ∃ pre kw post, SHAPE_KEYWORDS = pre ++ (kw, v) :: post ∧
            occursCI kw t = true ∧ ∀ p ∈ pre, occursCI p.1 t = false) ∧
    (∀ (t v : String),
        identify_action t = some v ↔
          ∃ pre kw post, ACTION_KEYWORDS = pre ++ (kw, v) :: post ∧
            occursCI kw t = true ∧ ∀ p ∈ pre, occursCI p.1 t = false) ∧
    identify_shape "draw a polyline" = some "line" ∧
    occursCI "polyline" "draw a polyline" = true := by
  refine ⟨fun t v => lookupKeyword_eq_some_iff _ t v,
    fun t v => lookupKeyword_eq_some_iff _ t v, ?_, ?_⟩
  · with_unfolding_all rfl
  · with_unfolding_all rfl

/-! ## Per-parser facts used by the orchestrator claims -/

theorem parse_line_props (t : String) :
    dictGet (_parse_line t) "file_path" = none ∧ _parse_line t ≠ [] := by
  unfold _parse_line
  split <;> exact ⟨by with_unfolding_all rfl, by simp⟩

theorem parse_circle_props (t : String) :
    dictGet (_parse_circle t) "file_path" = none ∧ _parse_circle t ≠ [] := by
  rw [parse_circle_params t]
  exact ⟨by with_unfolding_all rfl, by simp⟩

theorem parse_arc_props (t : String) :
    dictGet (_parse_arc t) "file_path" = none ∧ _parse_arc t ≠ [] := by
  unfold _parse_arc
  repeat' split
  all_goals exact ⟨by simp [dictGet_dictSet, dictGet], by simp [dictSet_ne_nil]⟩

theorem parse_ellipse_props (t : String) :
    dictGet (_parse_ellipse t) "file_path" = none ∧ _parse_ellipse t ≠ [] := by
  unfold _parse_ellipse
  repeat' split
  all_goals exact ⟨by simp [dictGet_dictSet, dictGet], by simp [dictSet_ne_nil]⟩

theorem parse_rectangle_props (t : String) :
    dictGet (_parse_rectangle t) "file_path" = none ∧ _parse_rectangle t ≠ [] := by
  unfold _parse_rectangle
  repeat' split
  all_goals exact ⟨by with_unfolding_all rfl, by simp⟩

theorem parse_polyline_props (t : String) :
    dictGet (_parse_polyline t) "file_path" = none ∧ _parse_polyline t ≠ [] := by
  simp only [_parse_polyline]
  split <;> exact ⟨by with_unfolding_all rfl, by simp⟩

theorem parse_text_props (t : String) :
    dictGet (_parse_text t) "file_path" = none ∧ _parse_text t ≠ [] := by
  unfold _parse_text
  repeat' split
  all_goals exact ⟨by simp [dictGet_dictSet, dictGet], by simp [dictSet_ne_nil]⟩

theorem parse_dimension_props (t : String) :
    dictGet (_parse_dimension t) "file_path" = none ∧ _parse_dimension t ≠ [] := by
  unfold _parse_dimension
  repeat' split
  all_goals exact ⟨by with_unfolding_all rfl, by simp⟩

theorem parse_hatch_props (t : String) :
    dictGet (_parse_hatch t) "file_path" = none ∧ _parse_hatch t ≠ [] := by
  unfold _parse_hatch
  repeat' split
  all_goals exact ⟨by simp [dictGet_dictSet, dictGet], by simp [dictSet_ne_nil]⟩

theorem shape_values {s : String} (h : s ∈ SHAPE_KEYWORDS.map Prod.snd) :
    s = "line" ∨ s = "circle" ∨ s = "arc" ∨ s = "ellipse" ∨ s = "rectangle" ∨
      s = "polyline" ∨ s = "text" ∨ s = "dimension" ∨ s = "hatch" := by
  have hall : SHAPE_KEYWORDS.all
      (fun p => p.2 == "line" || p.2 == "circle" || p.2 == "arc" || p.2 == "ellipse" ||
        p.2 == "rectangle" || p.2 == "polyline" || p.2 == "text" || p.2 == "dimension" ||
        p.2 == "hatch") = true := by decide
  rcases List.mem_map.mp h with ⟨p, hp, rfl⟩
  have hb := List.all_eq_true.mp hall p hp
  simp only [Bool.or_eq_true, beq_iff_eq] at hb
  tauto

/-- C6: color extraction is none exactly when no color surface form occurs
case-insensitively in the text; at the position the compiled length-sorted
alternation matches, the matched surface form is at least as long as every
other form matching there (so a shorter prefix such as 紫 never beats 紫红);
and a text containing 紫红 yields index 6, not 200. -/
theorem color_longest_match :
    (∀ t : String,
        extract_color t = none ↔ ∀ p ∈ COLOR_MAP, occursCI p.1 t = false) ∧
    (∀ (s : List Char) (c : String), colorMatchAt s = some c →
        ∀ c2 ∈ COLOR_MAP.map Prod.fst, (stripCI c2.data s).isSome = true →
          c2.length ≤ c.length) ∧
    extract_color "画一个紫红的圆" = some 6 ∧
    extract_color "draw a circle" = none := by
  refine ⟨?_, ?_, by with_unfolding_all rfl, by with_unfolding_all rfl⟩
  · intro t
    unfold extract_color
    constructor
    · intro h p hp
      cases hre : reSearch colorMatchAt t.data with
      | some n =>
        rw [hre] at h
        simp only [Option.some_bind] at h
        have hmemn : n ∈ sortedColors := by
          rcases (reSearch_eq_some_iff colorMatchAt colorMatchAt_nil t.data n).mp hre
            with ⟨i, hi, -⟩
          unfold colorMatchAt at hi
          exact List.mem_of_find?_eq_some hi
        have hsome := colorLookup_mem (sortedColors_perm.mem_iff.mp hmemn)
        rw [h] at hsome
        exact absurd hsome (by simp)
      | none =>
        by_contra hcon
        have htrue : occursCI p.1 t = true := by
          cases hoc : occursCI p.1 t
          · exact absurd hoc hcon
          · rfl
        rcases (occursCI_iff_stripCI p.1 t).mp htrue with ⟨i, hi⟩
        have hnone := (reSearch_eq_none_iff colorMatchAt colorMatchAt_nil t.data).mp hre i
        have hfalse := (colorMatchAt_eq_none_iff _).mp hnone p.1 (List.mem_map.mpr ⟨p, hp, rfl⟩)
        rw [hfalse] at hi
        exact absurd hi (by simp)
    · intro hall
      cases hre : reSearch colorMatchAt t.data with
      | none => rfl
      | some n =>
        exfalso
        rcases (reSearch_eq_some_iff colorMatchAt colorMatchAt_nil t.data n).mp hre
          with ⟨i, hi, -⟩
        unfold colorMatchAt at hi
        have hpred := List.find?_some hi
        have hmemn := List.mem_of_find?_eq_some hi
        rcases List.mem_map.mp (sortedColors_perm.mem_iff.mp hmemn) with ⟨p, hp, rfl⟩
        have hocc : occursCI p.1 t = true :=
          (occursCI_iff_stripCI p.1 t).mpr ⟨i, by simpa using hpred⟩
        rw [hall p hp] at hocc
        exact absurd hocc (by simp)
  · intro s c hf c2 hmem hp
    unfold colorMatchAt at hf
    exact find?_sorted_max sortedColors_sorted hf c2
      (sortedColors_perm.mem_iff.mpr hmem) (by simpa using hp)

/-- C7: no shape-table entry maps to the tag "save", so a parsed command
never has shape "save" and never carries a "file_path" parameter; a text
with only a save action keyword takes the degraded shape-none path. -/
theorem save_shape_unreachable :
    (SHAPE_KEYWORDS.all fun p => !(p.2 == "save")) = true ∧
    (∀ t : String, (parse_command t).shape ≠ some "save") ∧
    (∀ t : String, dictGet (parse_command t).parameters "file_path" = none) ∧
    parse_command "save" =
      { action := "save", shape := none, parameters := [], raw_text := "save",
        confidence := 3 / 10 } := by
  refine ⟨by decide, ?_, ?_, by with_unfolding_all rfl⟩
  · intro t
    cases h : identify_shape t with
    | none => simp [parse_command, h]
    | some s =>
      have hs := shape_values (lookupKeyword_val_mem h)
      simp only [parse_command, h]
      rcases hs with rfl | rfl | rfl | rfl | rfl | rfl | rfl | rfl | rfl <;> simp
  · intro t
    cases h : identify_shape t with
    | none => simp [parse_command, h, dictGet]
    | some s =>
      have hs := shape_values (lookupKeyword_val_mem h)
      rcases hs with rfl | rfl | rfl | rfl | rfl | rfl | rfl | rfl | rfl <;>
        · simp only [parse_command, h]
          cases hc : extract_color t <;>
            simp [hc, dictGet_dictSet, (parse_line_props t).1, (parse_circle_props t).1,
              (parse_arc_props t).1, (parse_ellipse_props t).1, (parse_rectangle_props t).1,
              (parse_polyline_props t).1, (parse_text_props t).1, (parse_dimension_props t).1,
              (parse_hatch_props t).1]

/-- C9: every numeric capture produced by number extraction, coordinate
extraction, or a keyword-value search is a well-formed decimal literal, and
float conversion on its text succeeds and returns the captured value — no
conversion-error branch is reachable. -/
theorem numeric_captures_convert :
    (∀ t : String, ∀ n ∈ numLexemes t, pyFloat? n.render = some n.val) ∧
    (∀ t : String, ∀ pr ∈ coordLexemes t,
        pyFloat? pr.1.render = some pr.1.val ∧ pyFloat? pr.2.render = some pr.2.val) ∧
    (∀ (kw t : String) (n : NumLex), kwSearch kw t = some n →
        pyFloat? n.render = some n.val) ∧
    (∀ (kw mid t : String) (n : NumLex), kwOptSearch kw mid t = some n →
        pyFloat? n.render = some n.val) := by
  refine ⟨?_, ?_, ?_, ?_⟩
  · intro t n hn
    exact pyFloat_render (numScan_WF _ _ n hn)
  · intro t pr hpr
    obtain ⟨w1, w2⟩ := coordScan_WF _ _ pr hpr
    exact ⟨pyFloat_render w1, pyFloat_render w2⟩
  · intro kw t n h
    exact pyFloat_render (reSearch_pred (fun s y hy => kwValAt_WF hy) _ _ h)
  · intro kw mid t n h
    exact pyFloat_render (reSearch_pred (fun s y hy => kwOptValAt_WF hy) _ _ h)

/-- C10: whenever a shape surface form is recognized, the dispatched parser
returns a non-empty parameter map, so the confidence is exactly 0.8. -/
theorem shape_gives_confidence (t s : String) (h : identify_shape t = some s) :
    (parse_command t).confidence = 4 / 5 := by
  have hs := shape_values (lookupKeyword_val_mem h)
  rcases hs with rfl | rfl | rfl | rfl | rfl | rfl | rfl | rfl | rfl <;>
    · simp only [parse_command, h]
      cases hc : extract_color t <;>
        simp [hc, List.isEmpty_iff, dictSet_ne_nil, (parse_line_props t).2,
          (parse_circle_props t).2, (parse_arc_props t).2, (parse_ellipse_props t).2,
          (parse_rectangle_props t).2, (parse_polyline_props t).2, (parse_text_props t).2,
          (parse_dimension_props t).2, (parse_hatch_props t).2]

/-- Witness for C10 at a concrete input that names a shape. -/
theorem shape_gives_confidence_witness :
    identify_shape "circle" = some "circle" ∧
    (parse_command "circle").confidence = 4 / 5 :=
  ⟨by with_unfolding_all rfl,
    shape_gives_confidence "circle" "circle" (by with_unfolding_all rfl)⟩
